import Mathlib

/-!
# cloudrunbot: the release-note check of `app/main.go`

A shallow embedding of the request handler `do` of `app/main.go` and of the
helpers it calls, followed by the properties of the feed check.

Conventions of the embedding.

* A Go `string` is a Lean `String`, read as its sequence of runes.  The three
  markers and the separator `"#"` are ASCII, so matching them on runes and on
  UTF-8 bytes is the same thing.
* `strings.Count`, `strings.Split`, `strings.ToLower`, `unicode.ToLower` and
  `status.FromError` belong to Go libraries, not to this repository; they are
  written out from their library definitions, at the generality the handler
  uses them.
* The world outside one call of the handler (the Firestore client, the HTTP
  fetch, the XML decoder, the document store) is a record of answers,
  `World`; the handler is a function from a `World` to an `Outcome`: the
  calls it made in order, the store it leaves, and how it ended.
-/

namespace unicode

/-- The rune mapping `unicode.ToLower`: an ASCII rune is lower-cased in place
(`'A'..'Z'` shifted by `'a' - 'A'`), every other rune is looked up in Go's
case tables.  The tables are not part of this repository and are the
parameter `tbl`. -/
def ToLower (tbl : Char → Char) (r : Char) : Char :=
  if r.val ≤ 0x7f then
    if 'A'.val ≤ r.val ∧ r.val ≤ 'Z'.val then Char.ofNat (r.toNat + 32) else r
  else tbl r

end unicode

namespace strings

/-- The scanning loop of `strings.Count` for a non-empty `substr`: find the
leftmost occurrence, count it, continue right after it.  `skip` is the number
of runes of the last counted occurrence still to be stepped over. -/
def countFrom (substr : List Char) : Nat → List Char → Nat
  | _, [] => 0
  | skip + 1, _ :: cs => countFrom substr skip cs
  | 0, c :: cs =>
    if substr.isPrefixOf (c :: cs) then 1 + countFrom substr (substr.length - 1) cs
    else countFrom substr 0 cs

/-- The function `strings.Count(s, substr)`: the number of non-overlapping
instances of `substr` in `s`; for an empty `substr`, the number of runes plus
one. -/
def Count (s substr : String) : Nat :=
  if substr.data = [] then s.data.length + 1 else countFrom substr.data 0 s.data

/-- The pieces of a rune sequence between occurrences of the rune `sep`. -/
def splitRunes (sep : Char) : List Char → List (List Char)
  | [] => [[]]
  | c :: cs =>
    if c = sep then [] :: splitRunes sep cs
    else
      match splitRunes sep cs with
      | [] => [[c]]
      | p :: ps => (c :: p) :: ps

/-- The function `strings.Split(s, sep)` for a separator of one rune, the only
way the handler calls it (`sep = "#"`): all pieces of `s` between separators,
one more piece than there are separators. -/
def Split (s : String) (sep : Char) : List String :=
  (splitRunes sep s.data).map String.mk

/-- The function `strings.ToLower(s)`: `unicode.ToLower` applied to every rune
(the ASCII fast path of the library computes the same string). -/
def ToLower (tbl : Char → Char) (s : String) : String :=
  ⟨s.data.map (unicode.ToLower tbl)⟩

end strings

/-- The function `plural` of `main.go`. -/
def plural (n : Int) : String :=
  if n > 1 then "s" else ""

/-- The function `plurale` of `main.go`. -/
def plurale (n : Int) : String :=
  if n > 1 then "es" else ""

/-- The struct `Link` shared by `Entry` and `Feed`. -/
structure Link where
  Text : String
  Rel : String
  Href : String
  deriving DecidableEq, Repr

/-- The struct `Content` of an `Entry`; its field `Type` is `ContentType`
here, `Type` being a keyword of Lean. -/
structure Content where
  Text : String
  ContentType : String
  deriving DecidableEq, Repr

/-- The struct `Entry` of `main.go`. -/
structure Entry where
  Text : String
  Title : String
  ID : String
  Updated : String
  Link : Link
  Content : Content
  deriving DecidableEq, Repr

/-- The struct `Author` of a `Feed`. -/
structure Author where
  Text : String
  Name : String
  deriving DecidableEq, Repr

/-- The struct `Feed` of `main.go` (`XMLName` is the element name). -/
structure Feed where
  XMLName : String
  Text : String
  Xmlns : String
  ID : String
  Title : String
  Link : Link
  Author : Author
  Updated : String
  Entries : List Entry
  deriving DecidableEq, Repr

/-- The constant `crReleaseKind` of `main.go`. -/
def crReleaseKind : String := "CloudRunReleaseNote"

/-- The URL the handler fetches (line 73). -/
def feedURL : String := "https://cloud.google.com/feeds/run-release-notes.xml"

namespace codes

/-- The status code `codes.Unknown`. -/
def Unknown : Nat := 2

/-- The status code `codes.NotFound`. -/
def NotFound : Nat := 5

/-- The status code `codes.Unavailable`. -/
def Unavailable : Nat := 14

/-- The method `String()` of a status code: its name, or `Code(n)` for a
number without one. -/
def String (c : Nat) : String :=
  match c with
  | 0 => "OK"
  | 1 => "Canceled"
  | 2 => "Unknown"
  | 3 => "InvalidArgument"
  | 4 => "DeadlineExceeded"
  | 5 => "NotFound"
  | 6 => "AlreadyExists"
  | 7 => "PermissionDenied"
  | 8 => "ResourceExhausted"
  | 9 => "FailedPrecondition"
  | 10 => "Aborted"
  | 11 => "OutOfRange"
  | 12 => "Unimplemented"
  | 13 => "Internal"
  | 14 => "Unavailable"
  | 15 => "DataLoss"
  | 16 => "Unauthenticated"
  | n => "Code(" ++ toString n ++ ")"

end codes

/-- A Go `error` value as the handler can tell them apart: one that carries a
gRPC status, or any other error. -/
inductive Err where
  | grpc (code : Nat) (msg : String)
  | other (msg : String)
  deriving DecidableEq, Repr

/-- The text `%s` prints for an `error` value, nil included. -/
def errText : Option Err → String
  | none => "%!s(<nil>)"
  | some (.grpc code msg) => "rpc error: code = " ++ codes.String code ++ " desc = " ++ msg
  | some (.other msg) => msg

namespace status

/-- A gRPC `*Status` that is not nil. -/
structure Status where
  code : Nat
  message : String
  deriving DecidableEq, Repr

/-- The method `Code()` of a `*Status`. -/
def Status.Code (s : Status) : Nat := s.code

/-- The function `status.FromError(err)`, first result: nil for a nil error,
the carried status for a gRPC error, and a status of code `Unknown` for every
other error. -/
def FromError : Option Err → Option Status
  | none => none
  | some (.grpc code msg) => some ⟨code, msg⟩
  | some (.other msg) => some ⟨codes.Unknown, msg⟩

end status

/-- The document store: the record held under each document path, if any. -/
abbrev Store := String → Option Entry

/-- The store after a record is written under `key`. -/
def Store.write (s : Store) (key : String) (e : Entry) : Store :=
  fun p => if p = key then some e else s p

/-- What the handler can observe of the HTTP response: the value of `feed`
after `Decode` has run on the body, and the error `Decode` returned.  Fields
decoded before an error keep their values. -/
structure Response where
  feed : Feed
  decodeErr : Option String
  deriving DecidableEq, Repr

/-- The answers of the outside world during one call of the handler. -/
structure World where
  /-- The error of `firestore.NewClient`, if any. -/
  newClientErr : Option String
  /-- The response pointer returned by `http.Get`; `none` is the nil pointer. -/
  resp : Option Response
  /-- The error returned by `http.Get`, if any. -/
  fetchErr : Option String
  /-- The records the document store holds when the call starts. -/
  store : Store
  /-- An error with which the store answers the existence query instead of
  looking the document up. -/
  getFault : Option Err
  /-- An error with which the store rejects the write; a rejected write leaves
  the records as they were. -/
  putFault : Option Err

/-- The external calls of the handler, one constructor per call site. -/
inductive Call where
  /-- Line 66, `firestore.NewClient`. -/
  | newClient
  /-- Lines 68, 75, 83, `dizmo.Errorf`. -/
  | errorf (text : String)
  /-- Line 69, `http.Error` with a status code. -/
  | httpError (code : Nat)
  /-- Line 73, `http.Get`. -/
  | fetch (url : String)
  /-- Line 81, `Decode` on the response body. -/
  | decode
  /-- Line 93, `doc.Get` on the document at `path`. -/
  | docGet (path : String)
  /-- Lines 98, 136, 141, `dizmo.Infof` with a fixed diagnostic text. -/
  | infof (text : String)
  /-- Line 121, `dizmo.Infof(ctx, msg)`: the one place where the composed
  message leaves the handler (the e-mail send after it is commented out). -/
  | emit (msg : String)
  /-- Line 134, `fs.Put` of an entry under a key. -/
  | put (key : String) (e : Entry)
  deriving DecidableEq, Repr

/-- A run-time panic of the handler. -/
inductive Panic where
  /-- Dereference of a nil pointer. -/
  | nilDereference
  /-- Index `index` out of range of a slice of length `len`. -/
  | indexOutOfRange (index len : Nat)
  deriving DecidableEq, Repr

/-- How a call of the handler ends. -/
inductive Exit where
  /-- The plain `return` of line 70. -/
  | returned
  /-- Control reaches the end of the function (after line 98). -/
  | finished
  /-- The statements `return nil, err` of lines 137 and 142 and, with `none`
  for `err`, the statement `return nil, nil` of line 139. -/
  | returnedErr (err : Option Err)
  /-- A panic, which unwinds the handler. -/
  | panicked (p : Panic)
  deriving DecidableEq, Repr

/-- The result of one call of the handler. -/
structure Outcome where
  calls : List Call
  store : Store
  exit : Exit

/-- The answer of `doc.Get` (line 93): the injected fault if there is one,
otherwise nil when a record is held under `path` and a `NotFound` status when
none is. -/
def World.docGet (w : World) (path : String) : Option Err :=
  match w.getFault with
  | some e => some e
  | none => if (w.store path).isSome then none else some (.grpc codes.NotFound "not found")

/-- Modelled from the spec: the key `k` of the call `fs.Put(ctx, k, &latest)`
(line 134) is declared nowhere in `main.go`.  The spec stores the record of an
entry under the key derived from its identity, the key the existence query
reads: the document path `crReleaseKind + "/" + date`. -/
def k (date : String) : String := crReleaseKind ++ "/" ++ date

/-- Lines 103 to 105: the step for the marker `>feature<`, with `n` its count. -/
def stepFeature (n : Int) (msg : String) : String :=
  if n > 0 then "Cloud Run has " ++ toString n ++ " new feature" ++ plural n else msg

/-- Lines 106 to 112: the step for the marker `>changed<`, with `n` its count. -/
def stepChanged (n : Int) (msg : String) : String :=
  if n > 0 then
    if msg = "" then "Cloud Run has " ++ toString n ++ " new change" ++ plural n
    else msg ++ (" and " ++ toString n ++ " change" ++ plural n)
  else msg

/-- Lines 113 to 119: the step for the marker `>fixed<`, with `n` its count. -/
def stepFixed (n : Int) (msg : String) : String :=
  if n > 0 then
    if msg = "" then "Cloud Run has " ++ toString n ++ " new fix" ++ plurale n
    else msg ++ (" and " ++ toString n ++ " fix" ++ plurale n)
  else msg

/-- Lines 102 to 119 as a function of the three counts. -/
def compose (f c x : Nat) : String :=
  stepFixed x (stepChanged c (stepFeature f ""))

/-- The three counts the handler takes (lines 100, 103, 106, 113): the
occurrences of the markers in the lower-cased body. -/
def classify (tbl : Char → Char) (body : String) : Nat × Nat × Nat :=
  let content := strings.ToLower tbl body
  (strings.Count content ">feature<", strings.Count content ">changed<",
    strings.Count content ">fixed<")

/-- Lines 100 to 119: the message built from the content body of an entry. -/
def message (tbl : Char → Char) (body : String) : String :=
  let content := strings.ToLower tbl body
  let msg := ""
  let msg := stepFeature (strings.Count content ">feature<") msg
  let msg := stepChanged (strings.Count content ">changed<") msg
  let msg := stepFixed (strings.Count content ">fixed<") msg
  msg

/-- Lines 92 to 143: the existence query on the document of `date` and the
three branches of the `switch`. -/
def checkAndRecord (tbl : Char → Char) (w : World) (pre : List Call) (latest : Entry)
    (date : String) : Outcome :=
  let path := crReleaseKind ++ "/" ++ date
  let err := w.docGet path
  let calls := pre ++ [Call.docGet path]
  let stat := status.FromError err
  match stat with
  | none =>
    -- version already exists
    ⟨calls ++ [.infof ("no new cloud run release notes since " ++ date)], w.store, .finished⟩
  | some stat =>
    if stat.Code = codes.NotFound then
      let msg := message tbl latest.Content.Text
      let calls := calls ++ [.emit msg, .put (k date) latest]
      match w.putFault with
      | some perr =>
        ⟨calls ++ [.infof ("unable to write entry to datastore: " ++ errText (some perr))],
          w.store, .returnedErr (some perr)⟩
      | none => ⟨calls, w.store.write (k date) latest, .returnedErr none⟩
    else
      ⟨calls ++ [.infof ("unable to fetch from datastore: " ++ errText err)], w.store,
        .returnedErr err⟩

/-- The handler `do` of `main.go` (`do` is a keyword of Lean, hence the longer
name). -/
def doHandler (tbl : Char → Char) (w : World) : Outcome :=
  match w.newClientErr with
  | some e =>
    ⟨[.newClient, .errorf ("unable to init firestore client: " ++ e), .httpError 500],
      w.store, .returned⟩
  | none =>
    let calls := [Call.newClient, Call.fetch feedURL]
    let calls :=
      match w.fetchErr with
      | some e => calls ++ [.errorf ("unable to fetch feed: " ++ e)]
      | none => calls
    -- line 78: `resp.Body` is evaluated when the `defer` statement runs
    match w.resp with
    | none => ⟨calls, w.store, .panicked .nilDereference⟩
    | some resp =>
      let feed := resp.feed
      let calls := calls ++ [Call.decode]
      let calls :=
        match resp.decodeErr with
        | some e => calls ++ [.errorf ("unable to decode feed: " ++ e)]
        | none => calls
      -- line 87: `feed.Entries[0]`
      match feed.Entries with
      | [] => ⟨calls, w.store, .panicked (.indexOutOfRange 0 0)⟩
      | latest :: _ =>
        -- line 90: `strings.Split(latest.ID, "#")[1]`
        let parts := strings.Split latest.ID '#'
        match parts.get? 1 with
        | none => ⟨calls, w.store, .panicked (.indexOutOfRange 1 parts.length)⟩
        | some date => checkAndRecord tbl w calls latest date

/-- The three categories of a release note, in the order the handler treats
them. -/
inductive Category where
  | feature
  | changed
  | fixed
  deriving DecidableEq, Repr

/-- The singular noun of a category. -/
def Category.singular : Category → String
  | .feature => "feature"
  | .changed => "change"
  | .fixed => "fix"

/-- The plural noun of a category. -/
def Category.pluralForm : Category → String
  | .feature => "features"
  | .changed => "changes"
  | .fixed => "fixes"

/-- The noun as the spec words it: singular for a count of one, plural
otherwise. -/
def Category.noun (cat : Category) (n : Nat) : String :=
  if n = 1 then cat.singular else cat.pluralForm

/-- The noun as the handler prints it: the stem followed by the suffix that
`plural` or `plurale` gives for the count. -/
def Category.printed : Category → Int → String
  | .feature, n => "feature" ++ plural n
  | .changed, n => "change" ++ plural n
  | .fixed, n => "fix" ++ plurale n

/-- The step of the handler for a category. -/
def Category.step : Category → Int → String → String
  | .feature => stepFeature
  | .changed => stepChanged
  | .fixed => stepFixed

/-- The categories with a positive count, in the fixed order. -/
def present (f c x : Nat) : List (Category × Nat) :=
  [(Category.feature, f), (Category.changed, c), (Category.fixed, x)].filter
    (fun p => decide (0 < p.2))

/-- The sentence for a list of present categories when every later category
is appended as `" and N new <noun>"`. -/
def renderWithNew : List (Category × Nat) → String
  | [] => ""
  | (cat, n) :: rest =>
    "Cloud Run has " ++ toString n ++ " new " ++ cat.noun n ++
      String.join (rest.map (fun p => " and " ++ toString p.2 ++ " new " ++ p.1.noun p.2))

/-- The sentence for a list of present categories when every later category
is appended as `" and N <noun>"`. -/
def render : List (Category × Nat) → String
  | [] => ""
  | (cat, n) :: rest =>
    "Cloud Run has " ++ toString n ++ " new " ++ cat.noun n ++
      String.join (rest.map (fun p => " and " ++ toString p.2 ++ " " ++ p.1.noun p.2))

/-- A case table that leaves every rune as it is, for evaluating the handler
on ASCII text, where the table is never consulted. -/
def noTable : Char → Char := fun r => r

/-- The ten digit characters. -/
def digitChars : List Char := "0123456789".data

/-- The characters of the fixed words of the sentence, apart from the nouns. -/
def frameChars : List Char := "Cloud Run has new and".data

/-- A letter that occurs in the nouns of one category only: `t` for feature,
`g` for changed, `x` for fixed. -/
def Category.ownLetter : Category → Char
  | .feature => 't'
  | .changed => 'g'
  | .fixed => 'x'

/-- The count of a category among the three counts. -/
def Category.pick (f c x : Nat) : Category → Nat
  | .feature => f
  | .changed => c
  | .fixed => x

/-- A body in the markup of the release-note feed, with two feature headings
and one fixed heading. -/
def twoFeaturesOneFix : String :=
  "<h3>Feature</h3><p>a</p><h3>Feature</h3><p>b</p><h3>Fixed</h3><p>c</p>"

/-- The composed messages the handler sent out, in order (line 121). -/
def emitted : List Call → List String
  | [] => []
  | .emit msg :: cs => msg :: emitted cs
  | _ :: cs => emitted cs

/-- The writes the handler issued, in order (line 134). -/
def written : List Call → List (String × Entry)
  | [] => []
  | .put key e :: cs => (key, e) :: written cs
  | _ :: cs => written cs

/-- The documents whose existence the handler queried, in order (line 93). -/
def queried : List Call → List String
  | [] => []
  | .docGet path :: cs => path :: queried cs
  | _ :: cs => queried cs

/-- The number of times the handler ran the decoder (line 81). -/
def decoded : List Call → Nat
  | [] => 0
  | .decode :: cs => decoded cs + 1
  | _ :: cs => decoded cs

/-- The outcomes of `n` successive calls of the handler on the same feed and
the same answers, each call starting from the store the one before left. -/
def runs (tbl : Char → Char) : Nat → World → List Outcome
  | 0, _ => []
  | n + 1, w =>
    let o := doHandler tbl w
    o :: runs tbl n { w with store := o.store }

/-- Two bodies that differ in letter case only: they have the same length and,
position by position, runes with the same lower-case form. -/
def sameUpToCase (tbl : Char → Char) (a b : String) : Prop :=
  List.Forall₂ (fun p q => unicode.ToLower tbl p = unicode.ToLower tbl q) a.data b.data

instance (tbl : Char → Char) (a b : String) : Decidable (sameUpToCase tbl a b) := by
  unfold sameUpToCase
  infer_instance

/-- An entry with the given identity and content body. -/
def entryOf (id body : String) : Entry :=
  ⟨"", "March 10, 2020", id, "2020-03-10T00:00:00-07:00", ⟨"", "alternate", ""⟩, ⟨body, "html"⟩⟩

/-- A feed with the given entries. -/
def feedOf (es : List Entry) : Feed :=
  ⟨"feed", "", "http://www.w3.org/2005/Atom", "tag:google.com,2016:run-release-notes",
    "Cloud Run - Release notes", ⟨"", "self", feedURL⟩, ⟨"", "Google Cloud Platform"⟩,
    "2020-03-10T00:00:00-07:00", es⟩

/-- The store that holds no record. -/
def emptyStore : Store := fun _ => none

/-- A world in which the client, the fetch and the decoder succeed and the
store answers from the records it holds. -/
def worldOf (feed : Feed) (store : Store) : World :=
  ⟨none, some ⟨feed, none⟩, none, store, none, none⟩

/-- An entry identity of the release-note feed. -/
def marchID : String := "tag:google.com,2016:run-release-notes#March_10_2020"

/-- The document path of the entry `marchID`. -/
def marchPath : String := "CloudRunReleaseNote/March_10_2020"

/-- The calls the handler makes before it looks at the entries: the client,
the fetch and the decoder, each with the line it logs on an error. -/
def preCalls (w : World) (r : Response) : List Call :=
  [Call.newClient, Call.fetch feedURL]
    ++ (match w.fetchErr with
        | some e => [Call.errorf ("unable to fetch feed: " ++ e)]
        | none => [])
    ++ [Call.decode]
    ++ (match r.decodeErr with
        | some e => [Call.errorf ("unable to decode feed: " ++ e)]
        | none => [])

/-- The composition of lines 102 to 119 applied to a triple of counts. -/
def composeOf (t : Nat × Nat × Nat) : String := compose t.1 t.2.1 t.2.2

/-- A store that holds the record of the March entry under its path. -/
def marchStore : Store := emptyStore.write marchPath (entryOf marchID twoFeaturesOneFix)

/-- A world like `worldOf feed store` in which the store answers the existence
query with the error `e`. -/
def faultyWorld (feed : Feed) (store : Store) (e : Err) : World :=
  ⟨none, some ⟨feed, none⟩, none, store, some e, none⟩

/-- A body without any of the three markers. -/
def noMarkers : String := "<p>The documentation has moved.</p>"

/-- A world in which the decoder fails after the first entry was decoded: the
document breaks off in the second entry. -/
def truncatedWorld : World :=
  ⟨none, some ⟨feedOf [entryOf marchID twoFeaturesOneFix], some "XML syntax error: unexpected EOF"⟩,
    none, emptyStore, none, none⟩

/-- A world in which the fetch fails and returns no response. -/
def unreachableWorld : World :=
  ⟨none, none, some "dial tcp: i/o timeout", emptyStore, none, none⟩

/-- A world in which the fetch fails after a redirect and returns both an error
and the last response, whose body is closed, so that the decoder fails on it. -/
def redirectWorld : World :=
  ⟨none, some ⟨feedOf [], some "http: read on closed response body"⟩,
    some "stopped after 10 redirects", emptyStore, none, none⟩

namespace unicode

/-- The rune mapping `unicode.ToUpper`: an ASCII rune is upper-cased in place
(`'a'..'z'` shifted by `'a' - 'A'`), every other rune is looked up in Go's
case tables, the parameter `tbl`. -/
def ToUpper (tbl : Char → Char) (r : Char) : Char :=
  if r.val ≤ 0x7f then
    if 'a'.val ≤ r.val ∧ r.val ≤ 'z'.val then Char.ofNat (r.toNat - 32) else r
  else tbl r

end unicode

namespace strings

/-- The function `strings.ToUpper(s)`: `unicode.ToUpper` applied to every
rune. -/
def ToUpper (tbl : Char → Char) (s : String) : String :=
  ⟨s.data.map (unicode.ToUpper tbl)⟩

end strings

/-- The number of positions of `body` at which `marker` occurs, for a marker
that is not empty. -/
def occurrences (marker : List Char) : List Char → Nat
  | [] => 0
  | c :: cs => (if marker.isPrefixOf (c :: cs) then 1 else 0) + occurrences marker cs

/-- The classification as the spec words it (section 4.3): for each category
the number of occurrences of its marker in the content body, letter case
ignored by lower-casing the body. -/
def specClassify (tbl : Char → Char) (body : String) : Nat × Nat × Nat :=
  let content := (strings.ToLower tbl body).data
  (occurrences ">feature<".data content, occurrences ">changed<".data content,
    occurrences ">fixed<".data content)

/-- The composition as the spec words it (section 4.3): only the categories
with a positive count, in the fixed order, the first as
`Cloud Run has N new <noun>` and every later one as ` and N new <noun>`. -/
def specCompose (t : Nat × Nat × Nat) : String := renderWithNew (present t.1 t.2.1 t.2.2)

/-- The composition of the spec with every later category appended as
` and N <noun>`, without the word `new`. -/
def printedCompose (t : Nat × Nat × Nat) : String := render (present t.1 t.2.1 t.2.2)

/-- The other letter case of an ASCII letter; every other rune as it is. -/
def asciiSwapCase (r : Char) : Char :=
  if 'A'.val ≤ r.val ∧ r.val ≤ 'Z'.val then Char.ofNat (r.toNat + 32)
  else if 'a'.val ≤ r.val ∧ r.val ≤ 'z'.val then Char.ofNat (r.toNat - 32)
  else r

/-- The body `b` is the body `a` with the letter case of some of its ASCII
letters changed: position by position, the same rune or the ASCII letter in
its other case. -/
def asciiCaseChanged (a b : String) : Prop :=
  List.Forall₂ (fun p q => q = p ∨ q = asciiSwapCase p) a.data b.data

instance (a b : String) : Decidable (asciiCaseChanged a b) := by
  unfold asciiCaseChanged
  infer_instance

/-- The body `b` is the body `a` with the letter case of some of its
characters changed: position by position, the same rune, its lower-case form
or its upper-case form. -/
def caseChanged (lower upper : Char → Char) (a b : String) : Prop :=
  List.Forall₂ (fun p q => q = p ∨ q = unicode.ToLower lower p ∨ q = unicode.ToUpper upper p)
    a.data b.data

instance (lower upper : Char → Char) (a b : String) :
    Decidable (caseChanged lower upper a b) := by
  unfold caseChanged
  infer_instance

/-- The entry of Go's upper-case table at U+0131, the small dotless i, whose
upper-case form is the ASCII letter `I`; every other rune is left as it is. -/
def upperOfDotlessI : Char → Char := fun r => if r = '\u0131' then 'I' else r

/-- The body `>fixed<` written with the small dotless i, U+0131. -/
def dotlessFixed : String := ">f\u0131xed<"

/-! ## Properties -/

theorem lead_ne_empty (s : String) : "Cloud Run has " ++ s ≠ "" := by
  intro h
  have := congrArg String.length h
  simp [String.length_append] at this
  exact absurd this.1 (by decide)

theorem toString_cast (n : Nat) : toString ((n : Nat) : Int) = toString n := rfl

theorem printed_eq_noun (cat : Category) (n : Nat) (h : 0 < n) :
    cat.printed n = cat.noun n := by
  rcases Nat.lt_or_ge 1 n with h1 | h1
  · have h2 : (1 : Int) < n := by exact_mod_cast h1
    have h3 : n ≠ 1 := by omega
    cases cat <;> simp [Category.printed, Category.noun, plural, plurale, h2, h3,
      Category.pluralForm]
  · have h3 : n = 1 := by omega
    subst h3
    cases cat <;> decide

theorem cast_pos_iff (n : Nat) : ((n : Nat) : Int) > 0 ↔ 0 < n := by
  constructor <;> intro h <;> omega

theorem stepFeature_zero (msg : String) : stepFeature 0 msg = msg := by
  simp [stepFeature]

theorem stepChanged_zero (msg : String) : stepChanged 0 msg = msg := by
  simp [stepChanged]

theorem stepFixed_zero (msg : String) : stepFixed 0 msg = msg := by
  simp [stepFixed]

theorem stepFeature_pos (n : Nat) (h : 0 < n) (msg : String) :
    stepFeature n msg = "Cloud Run has " ++ toString n ++ " new " ++ Category.feature.noun n := by
  have hn : ((n : Nat) : Int) > 0 := (cast_pos_iff n).2 h
  have hl : " new feature" = " new " ++ "feature" := by decide
  rw [← printed_eq_noun _ n h]
  simp only [stepFeature, hn, if_true, Category.printed, toString_cast, hl, String.append_assoc]

theorem stepChanged_first (n : Nat) (h : 0 < n) :
    stepChanged n "" = "Cloud Run has " ++ toString n ++ " new " ++ Category.changed.noun n := by
  have hn : ((n : Nat) : Int) > 0 := (cast_pos_iff n).2 h
  have hl : " new change" = " new " ++ "change" := by decide
  rw [← printed_eq_noun _ n h]
  simp only [stepChanged, hn, if_true, Category.printed, toString_cast, hl, String.append_assoc]

theorem stepChanged_later (n : Nat) (h : 0 < n) (msg : String) (hm : msg ≠ "") :
    stepChanged n msg = msg ++ (" and " ++ toString n ++ " " ++ Category.changed.noun n) := by
  have hn : ((n : Nat) : Int) > 0 := (cast_pos_iff n).2 h
  have hl : " change" = " " ++ "change" := by decide
  rw [← printed_eq_noun _ n h]
  simp only [stepChanged, hn, if_true, hm, if_false, Category.printed, toString_cast, hl,
    String.append_assoc]

theorem stepFixed_first (n : Nat) (h : 0 < n) :
    stepFixed n "" = "Cloud Run has " ++ toString n ++ " new " ++ Category.fixed.noun n := by
  have hn : ((n : Nat) : Int) > 0 := (cast_pos_iff n).2 h
  have hl : " new fix" = " new " ++ "fix" := by decide
  rw [← printed_eq_noun _ n h]
  simp only [stepFixed, hn, if_true, Category.printed, toString_cast, hl, String.append_assoc]

theorem stepFixed_later (n : Nat) (h : 0 < n) (msg : String) (hm : msg ≠ "") :
    stepFixed n msg = msg ++ (" and " ++ toString n ++ " " ++ Category.fixed.noun n) := by
  have hn : ((n : Nat) : Int) > 0 := (cast_pos_iff n).2 h
  have hl : " fix" = " " ++ "fix" := by decide
  rw [← printed_eq_noun _ n h]
  simp only [stepFixed, hn, if_true, hm, if_false, Category.printed, toString_cast, hl,
    String.append_assoc]

theorem present_cons_pos (cat : Category) (n : Nat) (h : 0 < n) (l : List (Category × Nat)) :
    ((cat, n) :: l).filter (fun p => decide (0 < p.2))
      = (cat, n) :: l.filter (fun p => decide (0 < p.2)) := by
  simp [List.filter, h]

theorem present_cons_zero (cat : Category) (l : List (Category × Nat)) :
    ((cat, 0) :: l).filter (fun p => decide (0 < p.2))
      = l.filter (fun p => decide (0 < p.2)) := by
  simp [List.filter]

theorem join_nil : String.join [] = "" := rfl

theorem join_one (a : String) : String.join [a] = a := by
  simp [String.join]

theorem join_two (a b : String) : String.join [a, b] = a ++ b := by
  simp [String.join]

theorem compose_eq_render (f c x : Nat) : compose f c x = render (present f c x) := by
  have ne : ∀ (a b : String) (cat : Category) (n : Nat),
      "Cloud Run has " ++ a ++ b ++ cat.noun n ≠ "" := fun a b cat n => by
    rw [String.append_assoc, String.append_assoc]; exact lead_ne_empty _
  have ne2 : ∀ (a b d : String) (cat : Category) (n : Nat),
      "Cloud Run has " ++ a ++ b ++ cat.noun n ++ d ≠ "" := fun a b d cat n => by
    rw [String.append_assoc, String.append_assoc, String.append_assoc]; exact lead_ne_empty _
  rcases Nat.eq_zero_or_pos f with rfl | hf
  · rcases Nat.eq_zero_or_pos c with rfl | hc
    · rcases Nat.eq_zero_or_pos x with rfl | hx
      · decide
      · simp [compose, stepFeature_zero, stepChanged_zero, stepFixed_first _ hx, present,
          present_cons_zero, present_cons_pos _ _ hx, render, join_nil]
    · rcases Nat.eq_zero_or_pos x with rfl | hx
      · simp [compose, stepFeature_zero, stepFixed_zero, stepChanged_first _ hc, present,
          present_cons_zero, present_cons_pos _ _ hc, render, join_nil]
      · simp [compose, stepFeature_zero, stepChanged_first _ hc,
          stepFixed_later _ hx _ (ne _ _ _ _), present,
          present_cons_zero, present_cons_pos _ _ hc, present_cons_pos _ _ hx, render, join_one]
  · rcases Nat.eq_zero_or_pos c with rfl | hc
    · rcases Nat.eq_zero_or_pos x with rfl | hx
      · simp [compose, stepFeature_pos _ hf, stepChanged_zero, stepFixed_zero, present,
          present_cons_zero, present_cons_pos _ _ hf, render, join_nil]
      · simp [compose, stepFeature_pos _ hf, stepChanged_zero,
          stepFixed_later _ hx _ (ne _ _ _ _), present,
          present_cons_zero, present_cons_pos _ _ hf, present_cons_pos _ _ hx, render, join_one]
    · rcases Nat.eq_zero_or_pos x with rfl | hx
      · simp [compose, stepFeature_pos _ hf, stepFixed_zero,
          stepChanged_later _ hc _ (ne _ _ _ _), present,
          present_cons_zero, present_cons_pos _ _ hf, present_cons_pos _ _ hc, render, join_one]
      · rw [compose, stepFeature_pos _ hf, stepChanged_later _ hc _ (ne _ _ _ _),
          stepFixed_later _ hx _ (ne2 _ _ _ _ _)]
        simp [present, present_cons_pos _ _ hf, present_cons_pos _ _ hc,
          present_cons_pos _ _ hx, render, join_two, String.append_assoc]

theorem digitChar_mem (k : Nat) (h : k < 10) : Nat.digitChar k ∈ digitChars := by
  interval_cases k <;> decide

theorem toDigitsCore_mem (fuel : Nat) : ∀ (n : Nat) (ds : List Char) (ch : Char),
    ch ∈ Nat.toDigitsCore 10 fuel n ds → ch ∈ digitChars ∨ ch ∈ ds := by
  induction fuel with
  | zero => intro n ds ch h; right; simpa [Nat.toDigitsCore] using h
  | succ fuel ih =>
    intro n ds ch h
    simp only [Nat.toDigitsCore] at h
    split at h
    · rcases List.mem_cons.1 h with h | h
      · left; rw [h]; exact digitChar_mem _ (Nat.mod_lt _ (by decide))
      · right; exact h
    · rcases ih _ _ _ h with h | h
      · left; exact h
      · rcases List.mem_cons.1 h with h | h
        · left; rw [h]; exact digitChar_mem _ (Nat.mod_lt _ (by decide))
        · right; exact h

theorem toString_digits (n : Nat) (ch : Char) (h : ch ∈ (toString n).data) :
    ch ∈ digitChars := by
  have h2 : ch ∈ Nat.toDigitsCore 10 (n + 1) n [] := h
  rcases toDigitsCore_mem _ _ _ _ h2 with h3 | h3
  · exact h3
  · simp at h3

theorem render_chars (l : List (Category × Nat)) (ch : Char) (h : ch ∈ (render l).data) :
    ch ∈ frameChars ∨ ch ∈ digitChars ∨ ∃ p ∈ l, ch ∈ (p.1.noun p.2).data := by
  cases l with
  | nil => simp [render] at h
  | cons p rest =>
    obtain ⟨cat, n⟩ := p
    simp only [render, String.data_append, List.mem_append, String.data_join, List.map_map,
      List.mem_flatten, List.mem_map, Function.comp] at h
    rcases h with (((h | h) | h) | h) | h
    · left
      have hs : "Cloud Run has ".data ⊆ frameChars := by decide
      exact hs h
    · right; left; exact toString_digits _ _ h
    · left
      have hs : " new ".data ⊆ frameChars := by decide
      exact hs h
    · right; right; exact ⟨(cat, n), List.mem_cons_self _ _, h⟩
    · obtain ⟨cs, ⟨q, hq, rfl⟩, hc⟩ := h
      simp only [String.data_append, List.mem_append] at hc
      rcases hc with ((h | h) | h) | h
      · left
        have hs : " and ".data ⊆ frameChars := by decide
        exact hs h
      · right; left; exact toString_digits _ _ h
      · left
        have hs : " ".data ⊆ frameChars := by decide
        exact hs h
      · right; right; exact ⟨q, List.mem_cons_of_mem _ hq, h⟩

theorem ownLetter_mem_singular (cat : Category) : cat.ownLetter ∈ cat.singular.data := by
  cases cat <;> decide

theorem ownLetter_only (cat other : Category) (n : Nat)
    (h : cat.ownLetter ∈ (other.noun n).data) : other = cat := by
  by_cases h1 : n = 1
  · subst h1
    revert h
    cases cat <;> cases other <;> decide
  · simp only [Category.noun, h1, if_false] at h
    revert h
    cases cat <;> cases other <;> decide

theorem present_pick (f c x : Nat) (p : Category × Nat) (h : p ∈ present f c x) :
    0 < p.2 ∧ p.2 = p.1.pick f c x := by
  simp only [present, List.mem_filter, List.mem_cons, List.mem_singleton, decide_eq_true_eq,
    List.not_mem_nil, or_false] at h
  obtain ⟨h1, h2⟩ := h
  refine ⟨h2, ?_⟩
  rcases h1 with rfl | rfl | rfl <;> rfl

theorem absent_when_zero (cat : Category) (f c x : Nat) (h : cat.pick f c x = 0) :
    ¬ cat.singular.data <:+: (compose f c x).data := by
  intro hin
  have hmem : cat.ownLetter ∈ (compose f c x).data :=
    hin.subset (ownLetter_mem_singular cat)
  rw [compose_eq_render] at hmem
  rcases render_chars _ _ hmem with h1 | h1 | ⟨p, hp, h1⟩
  · revert h1; cases cat <;> decide
  · revert h1; cases cat <;> decide
  · obtain ⟨hpos, hpick⟩ := present_pick f c x p hp
    have := ownLetter_only cat p.1 p.2 h1
    rw [this] at hpick
    omega

/-- Claim C1, as the handler prints it: for every content body, with `f`, `c`
and `x` the numbers of occurrences of `>feature<`, `>changed<` and `>fixed<`
in the lower-cased body, the message lists exactly the categories whose count
is positive, in the order feature, changed, fixed; the first present category
is rendered as `Cloud Run has N new <noun>` and every later present category is
appended as ` and N <noun>`, without the word `new`.  A body with two feature
markers, one fixed marker and no changed marker yields
`Cloud Run has 2 new features and 1 fix`. -/
theorem message_lists_present_categories (tbl : Char → Char) (body : String) (f c x : Nat)
    (h : classify tbl body = (f, c, x)) :
    message tbl body = render (present f c x) ∧
      ((f, c, x) = (2, 0, 1) → message tbl body = "Cloud Run has 2 new features and 1 fix") := by
  have hm : message tbl body = compose f c x := by
    simp only [classify, Prod.mk.injEq] at h
    obtain ⟨h1, h2, h3⟩ := h
    simp only [message, compose, h1, h2, h3]
  refine ⟨by rw [hm, compose_eq_render], ?_⟩
  intro h2
  simp only [Prod.mk.injEq] at h2
  obtain ⟨rfl, rfl, rfl⟩ := h2
  rw [hm]
  decide

/-- Witness of claim C1 as the handler prints it, at a body with two feature
headings and one fixed heading. -/
theorem message_lists_present_categories_witness :
    classify noTable twoFeaturesOneFix = (2, 0, 1) ∧
      message noTable twoFeaturesOneFix = render (present 2 0 1) ∧
      ((2, 0, 1) = (2, 0, 1) →
        message noTable twoFeaturesOneFix = "Cloud Run has 2 new features and 1 fix") :=
  ⟨by decide, message_lists_present_categories noTable twoFeaturesOneFix 2 0 1 (by decide)⟩

/-- Claim C1 as stated fails: at a body with two feature headings and one
fixed heading the counts are 2, 0 and 1 and the handler composes
`Cloud Run has 2 new features and 1 fix`, which is not the sentence with
` and 1 new fix` that the claim gives. -/
theorem message_later_category_has_no_new :
    classify noTable twoFeaturesOneFix = (2, 0, 1) ∧
      message noTable twoFeaturesOneFix = "Cloud Run has 2 new features and 1 fix" ∧
      renderWithNew (present 2 0 1) = "Cloud Run has 2 new features and 1 new fix" ∧
      message noTable twoFeaturesOneFix ≠ renderWithNew (present 2 0 1) ∧
      message noTable twoFeaturesOneFix ≠ "Cloud Run has 2 new features and 1 new fix" := by
  decide

/-- Claim C2: `plural(n)` is empty for `n <= 1` and `s` for `n >= 2`,
`plurale(n)` is empty for `n <= 1` and `es` for `n >= 2`; for every category
and every count `n`, the step of the category leaves the message as it is when
`n = 0`, so that the noun of the category does not occur in the composed
message; the printed noun is the singular form when `n = 1` and the plural
form when `n >= 2`; and when `n > 0` the step writes the count and that noun,
as the first category on an empty message and as a later one otherwise. -/
theorem plural_boundary (cat : Category) (n : Nat) (msg : String) (f c x : Nat) :
    (plural n = if n ≤ 1 then "" else "s") ∧
    (plurale n = if n ≤ 1 then "" else "es") ∧
    (n = 0 → cat.step n msg = msg) ∧
    (cat.pick f c x = 0 → ¬ cat.singular.data <:+: (compose f c x).data) ∧
    (n = 1 → cat.printed n = cat.singular) ∧
    (2 ≤ n → cat.printed n = cat.pluralForm) ∧
    (0 < n → cat.step n "" = "Cloud Run has " ++ toString n ++ " new " ++ cat.printed n) ∧
    (0 < n → msg ≠ "" → cat ≠ Category.feature →
      cat.step n msg = msg ++ (" and " ++ toString n ++ " " ++ cat.printed n)) := by
  refine ⟨?_, ?_, ?_, absent_when_zero cat f c x, ?_, ?_, ?_, ?_⟩
  · by_cases h : n ≤ 1
    · have : ¬ ((n : Int) > 1) := by omega
      simp [plural, h, this]
    · have : ((n : Int) > 1) := by omega
      simp [plural, h, this]
  · by_cases h : n ≤ 1
    · have : ¬ ((n : Int) > 1) := by omega
      simp [plurale, h, this]
    · have : ((n : Int) > 1) := by omega
      simp [plurale, h, this]
  · rintro rfl
    cases cat
    · exact stepFeature_zero msg
    · exact stepChanged_zero msg
    · exact stepFixed_zero msg
  · rintro rfl
    cases cat <;> decide
  · intro h
    rw [printed_eq_noun cat n (by omega)]
    have : n ≠ 1 := by omega
    simp [Category.noun, this]
  · intro h
    rw [printed_eq_noun cat n h]
    cases cat
    · exact stepFeature_pos n h ""
    · exact stepChanged_first n h
    · exact stepFixed_first n h
  · intro h hm hc
    rw [printed_eq_noun cat n h]
    cases cat
    · exact absurd rfl hc
    · exact stepChanged_later n h msg hm
    · exact stepFixed_later n h msg hm

/-- Witness of claim C2 at the category fixed: a count of 0 leaves the
message alone, and counts of 1 and 3 print `fix` and `fixes`. -/
theorem plural_boundary_witness :
    Category.fixed.step (0 : Nat) "Cloud Run has 1 new feature" = "Cloud Run has 1 new feature" ∧
    Category.fixed.printed (1 : Nat) = "fix" ∧
    Category.fixed.printed (3 : Nat) = "fixes" ∧
    Category.fixed.step (3 : Nat) "Cloud Run has 1 new feature"
      = "Cloud Run has 1 new feature and 3 fixes" :=
  ⟨(plural_boundary .fixed 0 "Cloud Run has 1 new feature" 0 0 0).2.2.1 rfl,
    (plural_boundary .fixed 1 "" 0 0 0).2.2.2.2.1 rfl,
    (plural_boundary .fixed 3 "" 0 0 0).2.2.2.2.2.1 (by decide),
    (plural_boundary .fixed 3 "Cloud Run has 1 new feature" 0 0 0).2.2.2.2.2.2.2 (by decide)
      (by decide) (by decide)⟩

theorem emitted_append (a b : List Call) : emitted (a ++ b) = emitted a ++ emitted b := by
  induction a with
  | nil => rfl
  | cons c cs ih => cases c <;> simp [emitted, ih]

theorem written_append (a b : List Call) : written (a ++ b) = written a ++ written b := by
  induction a with
  | nil => rfl
  | cons c cs ih => cases c <;> simp [written, ih]

theorem queried_append (a b : List Call) : queried (a ++ b) = queried a ++ queried b := by
  induction a with
  | nil => rfl
  | cons c cs ih => cases c <;> simp [queried, ih]

theorem preCalls_quiet (w : World) (r : Response) :
    emitted (preCalls w r) = [] ∧ written (preCalls w r) = [] ∧ queried (preCalls w r) = [] := by
  unfold preCalls
  cases w.fetchErr <;> cases r.decodeErr <;> simp [emitted, written, queried]

theorem doHandler_reaches (tbl : Char → Char) (w : World) (r : Response) (latest : Entry)
    (rest : List Entry) (date : String) (hc : w.newClientErr = none) (hr : w.resp = some r)
    (he : r.feed.Entries = latest :: rest)
    (hd : (strings.Split latest.ID '#').get? 1 = some date) :
    doHandler tbl w = checkAndRecord tbl w (preCalls w r) latest date := by
  unfold doHandler preCalls
  simp only [hc, hr, he, hd]
  cases w.fetchErr <;> cases r.decodeErr <;> simp

/-- A call that does not get as far as the existence query (no client, no
response, no entry, or no segment after `#`) sends nothing, writes nothing,
queries nothing and leaves the store as it was. -/
theorem doHandler_unreached (tbl : Char → Char) (w : World)
    (h : w.newClientErr ≠ none ∨ w.resp = none ∨
      (∃ r, w.resp = some r ∧ (r.feed.Entries = [] ∨
        ∃ latest rest, r.feed.Entries = latest :: rest ∧
          (strings.Split latest.ID '#').get? 1 = none))) :
    emitted (doHandler tbl w).calls = [] ∧ written (doHandler tbl w).calls = [] ∧
      queried (doHandler tbl w).calls = [] ∧ (doHandler tbl w).store = w.store := by
  unfold doHandler
  cases hc : w.newClientErr with
  | some e => simp [emitted, written, queried]
  | none =>
    rcases h with h | h | ⟨r, hr, h⟩
    · exact absurd hc h
    · simp only [h]
      cases w.fetchErr <;> simp [emitted, written, queried]
    · rcases h with h | ⟨latest, rest, he, hd⟩
      · simp only [hr, h]
        cases w.fetchErr <;> cases r.decodeErr <;> simp [emitted, written, queried]
      · simp only [hr, he, hd]
        cases w.fetchErr <;> cases r.decodeErr <;> simp [emitted, written, queried]

theorem checkAndRecord_seen (tbl : Char → Char) (w : World) (pre : List Call) (latest : Entry)
    (date : String) (h : w.docGet (crReleaseKind ++ "/" ++ date) = none) :
    checkAndRecord tbl w pre latest date =
      ⟨pre ++ [Call.docGet (crReleaseKind ++ "/" ++ date)] ++
        [.infof ("no new cloud run release notes since " ++ date)], w.store, .finished⟩ := by
  simp [checkAndRecord, h, status.FromError]

theorem checkAndRecord_new (tbl : Char → Char) (w : World) (pre : List Call) (latest : Entry)
    (date : String) (e : Err) (st : status.Status)
    (h : w.docGet (crReleaseKind ++ "/" ++ date) = some e)
    (hs : status.FromError (some e) = some st) (hn : st.Code = codes.NotFound)
    (hp : w.putFault = none) :
    checkAndRecord tbl w pre latest date =
      ⟨pre ++ [Call.docGet (crReleaseKind ++ "/" ++ date)] ++
        [.emit (message tbl latest.Content.Text), .put (k date) latest],
        w.store.write (k date) latest, .returnedErr none⟩ := by
  simp [checkAndRecord, h, hs, hn, hp]

theorem checkAndRecord_new_calls (tbl : Char → Char) (w : World) (pre : List Call)
    (latest : Entry) (date : String) (e : Err) (st : status.Status)
    (h : w.docGet (crReleaseKind ++ "/" ++ date) = some e)
    (hs : status.FromError (some e) = some st) (hn : st.Code = codes.NotFound) :
    emitted (checkAndRecord tbl w pre latest date).calls
        = emitted pre ++ [message tbl latest.Content.Text] ∧
      written (checkAndRecord tbl w pre latest date).calls
        = written pre ++ [(k date, latest)] := by
  cases hp : w.putFault <;>
    simp [checkAndRecord, h, hs, hn, hp, emitted_append, written_append, emitted, written]

theorem checkAndRecord_error (tbl : Char → Char) (w : World) (pre : List Call) (latest : Entry)
    (date : String) (e : Err) (st : status.Status)
    (h : w.docGet (crReleaseKind ++ "/" ++ date) = some e)
    (hs : status.FromError (some e) = some st) (hn : st.Code ≠ codes.NotFound) :
    checkAndRecord tbl w pre latest date =
      ⟨pre ++ [Call.docGet (crReleaseKind ++ "/" ++ date)] ++
        [.infof ("unable to fetch from datastore: " ++ errText (some e))], w.store,
        .returnedErr (some e)⟩ := by
  simp [checkAndRecord, h, hs, hn]

theorem message_eq_composeOf (tbl : Char → Char) (body : String) :
    message tbl body = composeOf (classify tbl body) := rfl

theorem world_store_self (w : World) : { w with store := w.store } = w := by
  cases w; rfl

theorem docGet_held (w : World) (path : String) (rec : Entry) (hq : w.getFault = none)
    (hheld : w.store path = some rec) : w.docGet path = none := by
  simp [World.docGet, hq, hheld]

theorem docGet_absent (w : World) (path : String) (hq : w.getFault = none)
    (habs : w.store path = none) :
    w.docGet path = some (.grpc codes.NotFound "not found") := by
  simp [World.docGet, hq, habs]

theorem seen_once (tbl : Char → Char) (w : World) (r : Response) (latest : Entry)
    (rest : List Entry) (date : String) (rec : Entry)
    (hr : w.resp = some r) (he : r.feed.Entries = latest :: rest)
    (hd : (strings.Split latest.ID '#').get? 1 = some date)
    (hheld : w.store (crReleaseKind ++ "/" ++ date) = some rec) (hq : w.getFault = none) :
    emitted (doHandler tbl w).calls = [] ∧ written (doHandler tbl w).calls = [] ∧
      (doHandler tbl w).store = w.store ∧
      (w.newClientErr = none → (doHandler tbl w).exit = Exit.finished ∧
        queried (doHandler tbl w).calls = [crReleaseKind ++ "/" ++ date]) := by
  cases hc : w.newClientErr with
  | some e =>
    obtain ⟨h1, h2, _, h4⟩ := doHandler_unreached tbl w (Or.inl (by simp [hc]))
    exact ⟨h1, h2, h4, fun h => by simp at h⟩
  | none =>
    rw [doHandler_reaches tbl w r latest rest date hc hr he hd,
      checkAndRecord_seen tbl w _ latest date (docGet_held w _ rec hq hheld)]
    obtain ⟨h1, h2, h3⟩ := preCalls_quiet w r
    simp only [emitted_append, written_append, queried_append, h1, h2, h3]
    simp [emitted, written, queried]

/-- Claim C3: when the feed has at least one entry and the store already
holds a record under the document path derived from the identity of the first
entry, so that the existence query returns no error, a call of the handler
sends no message and makes no write, and the store after the call is the store
before it; when the client was created the call ends in the already-seen
branch after one query.  Hence every one of any number of repeated calls on the
same feed and store sends no message, makes no write and leaves the store
unchanged. -/
theorem already_seen_is_idempotent (tbl : Char → Char) (w : World) (r : Response)
    (latest : Entry) (rest : List Entry) (date : String) (rec : Entry)
    (hr : w.resp = some r) (he : r.feed.Entries = latest :: rest)
    (hd : (strings.Split latest.ID '#').get? 1 = some date)
    (hheld : w.store (crReleaseKind ++ "/" ++ date) = some rec) (hq : w.getFault = none) :
    emitted (doHandler tbl w).calls = [] ∧ written (doHandler tbl w).calls = [] ∧
      (doHandler tbl w).store = w.store ∧
      (w.newClientErr = none → (doHandler tbl w).exit = Exit.finished ∧
        queried (doHandler tbl w).calls = [crReleaseKind ++ "/" ++ date]) ∧
      ∀ n, ∀ o ∈ runs tbl n w, emitted o.calls = [] ∧ written o.calls = [] ∧
        o.store = w.store := by
  obtain ⟨h1, h2, h3, h4⟩ := seen_once tbl w r latest rest date rec hr he hd hheld hq
  refine ⟨h1, h2, h3, h4, ?_⟩
  intro n
  induction n with
  | zero => intro o ho; simp [runs] at ho
  | succ n ih =>
    intro o ho
    simp only [runs, h3, world_store_self, List.mem_cons] at ho
    rcases ho with rfl | ho
    · exact ⟨h1, h2, h3⟩
    · exact ih o ho

/-- Witness of claim C3: the March entry, already recorded. -/
theorem already_seen_is_idempotent_witness :
    emitted (doHandler noTable
        (worldOf (feedOf [entryOf marchID twoFeaturesOneFix]) marchStore)).calls = [] ∧
      written (doHandler noTable
        (worldOf (feedOf [entryOf marchID twoFeaturesOneFix]) marchStore)).calls = [] ∧
      (doHandler noTable
        (worldOf (feedOf [entryOf marchID twoFeaturesOneFix]) marchStore)).store = marchStore :=
  have h := already_seen_is_idempotent noTable
    (worldOf (feedOf [entryOf marchID twoFeaturesOneFix]) marchStore)
    ⟨feedOf [entryOf marchID twoFeaturesOneFix], none⟩ (entryOf marchID twoFeaturesOneFix) []
    "March_10_2020" (entryOf marchID twoFeaturesOneFix) rfl rfl (by decide) (by decide) rfl
  ⟨h.1, h.2.1, h.2.2.1⟩

theorem notFound_status :
    status.FromError (some (Err.grpc codes.NotFound "not found"))
      = some ⟨codes.NotFound, "not found"⟩ := rfl

theorem countFrom_drop (p : List Char) : ∀ (skip : Nat) (s : List Char),
    strings.countFrom p skip s = strings.countFrom p 0 (s.drop skip) := by
  intro skip
  induction skip with
  | zero => intro s; simp
  | succ n ih =>
    intro s
    cases s with
    | nil => simp [strings.countFrom]
    | cons c cs => simp [strings.countFrom, ih cs]

theorem occurrences_drop (h : Char) (t : List Char) : ∀ (n : Nat) (s : List Char),
    (∀ c ∈ s.take n, c ≠ h) → occurrences (h :: t) s = occurrences (h :: t) (s.drop n) := by
  intro n
  induction n with
  | zero => intro s _; simp
  | succ n ih =>
    intro s hs
    cases s with
    | nil => simp
    | cons c cs =>
      have hc : c ≠ h := hs c (by simp)
      have hrest : ∀ d ∈ cs.take n, d ≠ h := fun d hd => hs d (by simp [hd])
      have hne : ¬ (h = c) := fun e => hc e.symm
      simp [occurrences, hne, ih cs hrest]

theorem countFrom_eq_occurrences (h : Char) (t : List Char) (hnot : h ∉ t) :
    ∀ (n : Nat) (s : List Char), s.length ≤ n →
      strings.countFrom (h :: t) 0 s = occurrences (h :: t) s := by
  intro n
  induction n with
  | zero =>
    intro s hs
    have : s = [] := List.length_eq_zero.1 (Nat.le_zero.1 hs)
    subst this
    simp [strings.countFrom, occurrences]
  | succ n ih =>
    intro s hs
    cases s with
    | nil => simp [strings.countFrom, occurrences]
    | cons c cs =>
      have hlen : cs.length ≤ n := by simpa using hs
      by_cases hm : (h :: t).isPrefixOf (c :: cs) = true
      · have hp : h = c ∧ t <+: cs := by
          have := List.isPrefixOf_iff_prefix.1 hm
          simpa using this
        have htake : cs.take t.length = t := (List.prefix_iff_eq_take.1 hp.2).symm
        have hfree : ∀ d ∈ cs.take t.length, d ≠ h := by
          intro d hd e
          rw [htake] at hd
          exact hnot (e ▸ hd)
        have hdrop : (cs.drop t.length).length ≤ n := by
          simp only [List.length_drop]; omega
        simp only [strings.countFrom, hm, if_true, occurrences, List.length_cons,
          Nat.add_sub_cancel]
        rw [countFrom_drop, ih _ hdrop, ← occurrences_drop h t t.length cs hfree]
      · simp only [strings.countFrom, hm, occurrences, if_false, Bool.false_eq_true]
        rw [ih cs hlen]; simp

theorem classify_eq_specClassify (tbl : Char → Char) (body : String) :
    classify tbl body = specClassify tbl body := by
  simp only [classify, specClassify, strings.Count]
  simp only [List.cons_ne_nil, if_false, reduceCtorEq]
  rw [countFrom_eq_occurrences '>' _ (by decide) _ _ (Nat.le_refl _),
    countFrom_eq_occurrences '>' _ (by decide) _ _ (Nat.le_refl _),
    countFrom_eq_occurrences '>' _ (by decide) _ _ (Nat.le_refl _)]

/-- Claim C4, as the handler prints the message: when the feed has at least
one entry, the store holds no record under the document path derived from the
identity of the first entry, so that the existence query returns `NotFound`,
and the write succeeds, a call of the handler leaves the store holding the
first entry under that path with every other path unchanged, makes that one
write, and sends exactly one message: the composition, with every later
category appended as ` and N <noun>`, of the numbers of occurrences of the
three markers in the lower-cased content of the first entry.  A second call on
the same feed against the resulting store takes the already-seen branch, sends
no message, makes no write and leaves the store as the first call left it. -/
theorem new_entry_notified_once (tbl : Char → Char) (w : World) (r : Response)
    (latest : Entry) (rest : List Entry) (date : String)
    (hc : w.newClientErr = none) (hr : w.resp = some r)
    (he : r.feed.Entries = latest :: rest)
    (hd : (strings.Split latest.ID '#').get? 1 = some date)
    (habs : w.store (crReleaseKind ++ "/" ++ date) = none) (hq : w.getFault = none)
    (hp : w.putFault = none) :
    (doHandler tbl w).store (crReleaseKind ++ "/" ++ date) = some latest ∧
      (∀ p, p ≠ crReleaseKind ++ "/" ++ date → (doHandler tbl w).store p = w.store p) ∧
      written (doHandler tbl w).calls = [(crReleaseKind ++ "/" ++ date, latest)] ∧
      emitted (doHandler tbl w).calls
        = [printedCompose (specClassify tbl latest.Content.Text)] ∧
      (doHandler tbl w).exit = Exit.returnedErr none ∧
      emitted (doHandler tbl { w with store := (doHandler tbl w).store }).calls = [] ∧
      written (doHandler tbl { w with store := (doHandler tbl w).store }).calls = [] ∧
      (doHandler tbl { w with store := (doHandler tbl w).store }).store
        = (doHandler tbl w).store ∧
      (doHandler tbl { w with store := (doHandler tbl w).store }).exit = Exit.finished := by
  have hfirst := doHandler_reaches tbl w r latest rest date hc hr he hd
  rw [checkAndRecord_new tbl w _ latest date _ _ (docGet_absent w _ hq habs) notFound_status
    rfl hp] at hfirst
  have hstore : (doHandler tbl w).store (crReleaseKind ++ "/" ++ date) = some latest := by
    rw [hfirst]; simp [Store.write, k]
  obtain ⟨h1, h2, h3⟩ := preCalls_quiet w r
  obtain ⟨s1, s2, s3, s4⟩ := seen_once tbl { w with store := (doHandler tbl w).store } r latest
    rest date latest hr he hd hstore hq
  refine ⟨hstore, ?_, ?_, ?_, ?_, s1, s2, s3, (s4 hc).1⟩
  · intro p hne
    rw [hfirst]; simp [Store.write, k, hne]
  · rw [hfirst]
    simp only [written_append, h2]
    simp [written, k]
  · rw [hfirst]
    simp only [emitted_append, h1]
    simp only [emitted, List.nil_append]
    rw [message_eq_composeOf, classify_eq_specClassify, composeOf, printedCompose,
      compose_eq_render]
  · rw [hfirst]

/-- Witness of claim C4 as the handler prints the message: the March entry
against the empty store. -/
theorem new_entry_notified_once_witness :
    (doHandler noTable (worldOf (feedOf [entryOf marchID twoFeaturesOneFix]) emptyStore)).store
        marchPath = some (entryOf marchID twoFeaturesOneFix) ∧
      emitted (doHandler noTable
        (worldOf (feedOf [entryOf marchID twoFeaturesOneFix]) emptyStore)).calls
        = [printedCompose (specClassify noTable twoFeaturesOneFix)] ∧
      printedCompose (specClassify noTable twoFeaturesOneFix)
        = "Cloud Run has 2 new features and 1 fix" :=
  have h := new_entry_notified_once noTable
    (worldOf (feedOf [entryOf marchID twoFeaturesOneFix]) emptyStore)
    ⟨feedOf [entryOf marchID twoFeaturesOneFix], none⟩ (entryOf marchID twoFeaturesOneFix) []
    "March_10_2020" rfl rfl rfl (by decide) (by decide) rfl rfl
  ⟨h.1, h.2.2.2.1, by decide⟩

/-- Claim C4 as stated fails: for the March entry with two feature headings
and one fixed heading against the empty store, the counts are 2, 0 and 1, the
composition of the spec is `Cloud Run has 2 new features and 1 new fix`, and
the one message the handler sends is `Cloud Run has 2 new features and 1 fix`. -/
theorem emitted_message_is_not_the_spec_composition :
    specClassify noTable twoFeaturesOneFix = (2, 0, 1) ∧
      specCompose (specClassify noTable twoFeaturesOneFix)
        = "Cloud Run has 2 new features and 1 new fix" ∧
      emitted (doHandler noTable
        (worldOf (feedOf [entryOf marchID twoFeaturesOneFix]) emptyStore)).calls
        = ["Cloud Run has 2 new features and 1 fix"] ∧
      emitted (doHandler noTable
        (worldOf (feedOf [entryOf marchID twoFeaturesOneFix]) emptyStore)).calls
        ≠ [specCompose (specClassify noTable twoFeaturesOneFix)] := by
  decide

theorem written_reached (tbl : Char → Char) (w : World) (pre : List Call) (latest : Entry)
    (date : String) (hpre : written pre = []) (key : String) (ent : Entry)
    (h : (key, ent) ∈ written (checkAndRecord tbl w pre latest date).calls) :
    key = crReleaseKind ++ "/" ++ date ∧
      ∃ e st, w.docGet key = some e ∧ status.FromError (some e) = some st ∧
        st.Code = codes.NotFound := by
  cases hg : w.docGet (crReleaseKind ++ "/" ++ date) with
  | none =>
    rw [checkAndRecord_seen tbl w pre latest date hg] at h
    simp only [written_append, hpre] at h
    simp [written] at h
  | some e =>
    cases hs : status.FromError (some e) with
    | none => cases e <;> simp [status.FromError] at hs
    | some st =>
      by_cases hn : st.Code = codes.NotFound
      · have hw := (checkAndRecord_new_calls tbl w pre latest date e st hg hs hn).2
        rw [hw, hpre] at h
        simp only [List.nil_append, List.mem_singleton, Prod.mk.injEq, k] at h
        obtain ⟨rfl, _⟩ := h
        exact ⟨rfl, e, st, hg, hs, hn⟩
      · rw [checkAndRecord_error tbl w pre latest date e st hg hs hn] at h
        simp only [written_append, hpre] at h
        simp [written] at h

theorem store_changes_with_write (tbl : Char → Char) (w : World) (pre : List Call)
    (latest : Entry) (date : String)
    (h : written (checkAndRecord tbl w pre latest date).calls = written pre) :
    (checkAndRecord tbl w pre latest date).store = w.store := by
  cases hg : w.docGet (crReleaseKind ++ "/" ++ date) with
  | none => rw [checkAndRecord_seen tbl w pre latest date hg]
  | some e =>
    cases hs : status.FromError (some e) with
    | none => cases e <;> simp [status.FromError] at hs
    | some st =>
      by_cases hn : st.Code = codes.NotFound
      · have hw := (checkAndRecord_new_calls tbl w pre latest date e st hg hs hn).2
        rw [hw] at h
        simp at h
      · rw [checkAndRecord_error tbl w pre latest date e st hg hs hn]

/-- Claim C5: when the feed has at least one entry and the existence query on
the path of the first entry returns an error whose status code is not
`NotFound` (unavailable, unknown, or an error without a gRPC status), the call
sends no message, makes no write and leaves the store as it was, and once the
client was created it ends by returning that error.  In every world, a write
the handler makes was preceded by the answer `NotFound` for the path it writes
to, and a call without a write leaves the store unchanged.  An error without a
gRPC status gets the code `Unknown` from `status.FromError`, which is not
`NotFound`. -/
theorem store_error_safety (tbl : Char → Char) (w : World) :
    (∀ (r : Response) (latest : Entry) (rest : List Entry) (date : String) (e : Err)
        (st : status.Status),
      w.resp = some r → r.feed.Entries = latest :: rest →
      (strings.Split latest.ID '#').get? 1 = some date →
      w.docGet (crReleaseKind ++ "/" ++ date) = some e →
      status.FromError (some e) = some st → st.Code ≠ codes.NotFound →
      emitted (doHandler tbl w).calls = [] ∧ written (doHandler tbl w).calls = [] ∧
        (doHandler tbl w).store = w.store ∧
        (w.newClientErr = none → (doHandler tbl w).exit = Exit.returnedErr (some e))) ∧
    (∀ (key : String) (ent : Entry), (key, ent) ∈ written (doHandler tbl w).calls →
      ∃ e st, w.docGet key = some e ∧ status.FromError (some e) = some st ∧
        st.Code = codes.NotFound) ∧
    (written (doHandler tbl w).calls = [] → (doHandler tbl w).store = w.store) ∧
    (∀ msg : String, ∃ st, status.FromError (some (Err.other msg)) = some st ∧
      st.Code = codes.Unknown ∧ st.Code ≠ codes.NotFound) := by
  refine ⟨?_, ?_, ?_, fun msg => ⟨⟨codes.Unknown, msg⟩, rfl, rfl,
    show codes.Unknown ≠ codes.NotFound by decide⟩⟩
  · intro r latest rest date e st hr he hd hg hs hn
    cases hc : w.newClientErr with
    | some e0 =>
      obtain ⟨h1, h2, _, h4⟩ := doHandler_unreached tbl w (Or.inl (by simp [hc]))
      exact ⟨h1, h2, h4, fun h => by simp at h⟩
    | none =>
      rw [doHandler_reaches tbl w r latest rest date hc hr he hd,
        checkAndRecord_error tbl w _ latest date e st hg hs hn]
      obtain ⟨h1, h2, h3⟩ := preCalls_quiet w r
      simp only [emitted_append, written_append, h1, h2]
      simp [emitted, written]
  · intro key ent h
    by_cases hu : w.newClientErr ≠ none ∨ w.resp = none ∨
      (∃ r, w.resp = some r ∧ (r.feed.Entries = [] ∨
        ∃ latest rest, r.feed.Entries = latest :: rest ∧
          (strings.Split latest.ID '#').get? 1 = none))
    · rw [(doHandler_unreached tbl w hu).2.1] at h
      simp at h
    · simp only [not_or, not_not, not_exists, not_and] at hu
      obtain ⟨hc, hr, hx⟩ := hu
      obtain ⟨r, hr⟩ := Option.ne_none_iff_exists'.1 hr
      obtain ⟨he, hd⟩ := hx r hr
      obtain ⟨latest, rest, he⟩ := List.exists_cons_of_ne_nil he
      obtain ⟨date, hd⟩ := Option.ne_none_iff_exists'.1 (hd latest rest he)
      rw [doHandler_reaches tbl w r latest rest date hc hr he hd] at h
      exact (written_reached tbl w _ latest date (preCalls_quiet w r).2.1 key ent h).2
  · intro h
    by_cases hu : w.newClientErr ≠ none ∨ w.resp = none ∨
      (∃ r, w.resp = some r ∧ (r.feed.Entries = [] ∨
        ∃ latest rest, r.feed.Entries = latest :: rest ∧
          (strings.Split latest.ID '#').get? 1 = none))
    · exact (doHandler_unreached tbl w hu).2.2.2
    · simp only [not_or, not_not, not_exists, not_and] at hu
      obtain ⟨hc, hr, hx⟩ := hu
      obtain ⟨r, hr⟩ := Option.ne_none_iff_exists'.1 hr
      obtain ⟨he, hd⟩ := hx r hr
      obtain ⟨latest, rest, he⟩ := List.exists_cons_of_ne_nil he
      obtain ⟨date, hd⟩ := Option.ne_none_iff_exists'.1 (hd latest rest he)
      rw [doHandler_reaches tbl w r latest rest date hc hr he hd] at h ⊢
      exact store_changes_with_write tbl w _ latest date
        (h.trans (preCalls_quiet w r).2.1.symm)

/-- Witness of claim C5: the store is unavailable when the March entry is
looked up. -/
theorem store_error_safety_witness :
    emitted (doHandler noTable (faultyWorld (feedOf [entryOf marchID twoFeaturesOneFix])
        emptyStore (.grpc codes.Unavailable "connection refused"))).calls = [] ∧
      written (doHandler noTable (faultyWorld (feedOf [entryOf marchID twoFeaturesOneFix])
        emptyStore (.grpc codes.Unavailable "connection refused"))).calls = [] ∧
      (doHandler noTable (faultyWorld (feedOf [entryOf marchID twoFeaturesOneFix])
        emptyStore (.grpc codes.Unavailable "connection refused"))).store = emptyStore :=
  have h := (store_error_safety noTable (faultyWorld (feedOf [entryOf marchID twoFeaturesOneFix])
      emptyStore (.grpc codes.Unavailable "connection refused"))).1
    ⟨feedOf [entryOf marchID twoFeaturesOneFix], none⟩ (entryOf marchID twoFeaturesOneFix) []
    "March_10_2020" (.grpc codes.Unavailable "connection refused")
    ⟨codes.Unavailable, "connection refused"⟩ rfl rfl (by decide) rfl rfl (by decide)
  ⟨h.1, h.2.1, h.2.2.1⟩

/-- Claim C6 as stated fails: for the March entry with a body without markers
and the empty store, the composed message is empty and the record is written,
but the handler still makes its message call, with the empty string. -/
theorem empty_message_is_still_sent :
    classify noTable noMarkers = (0, 0, 0) ∧
      message noTable noMarkers = "" ∧
      emitted (doHandler noTable (worldOf (feedOf [entryOf marchID noMarkers]) emptyStore)).calls
        = [""] ∧
      emitted (doHandler noTable (worldOf (feedOf [entryOf marchID noMarkers]) emptyStore)).calls
        ≠ [] ∧
      (doHandler noTable (worldOf (feedOf [entryOf marchID noMarkers]) emptyStore)).store
        marchPath = some (entryOf marchID noMarkers) := by
  decide

/-- Claim C6, as the handler behaves: when the content of the first entry has
none of the three markers in any letter case (the three counts on the
lower-cased body are zero) and the path of the entry is absent from the store,
the composed message is the empty string, the handler makes its one message
call with that empty string, it issues the write of the first entry under the
path, and when the write succeeds the store holds the entry there. -/
theorem zero_category_entry_recorded (tbl : Char → Char) (w : World) (r : Response)
    (latest : Entry) (rest : List Entry) (date : String)
    (hc : w.newClientErr = none) (hr : w.resp = some r)
    (he : r.feed.Entries = latest :: rest)
    (hd : (strings.Split latest.ID '#').get? 1 = some date)
    (hz : classify tbl latest.Content.Text = (0, 0, 0))
    (habs : w.store (crReleaseKind ++ "/" ++ date) = none) (hq : w.getFault = none) :
    message tbl latest.Content.Text = "" ∧
      emitted (doHandler tbl w).calls = [""] ∧
      written (doHandler tbl w).calls = [(crReleaseKind ++ "/" ++ date, latest)] ∧
      (w.putFault = none →
        (doHandler tbl w).store (crReleaseKind ++ "/" ++ date) = some latest) := by
  have hm : message tbl latest.Content.Text = "" := by
    rw [message_eq_composeOf, hz]; decide
  obtain ⟨h1, h2, h3⟩ := preCalls_quiet w r
  have hcalls := checkAndRecord_new_calls tbl w (preCalls w r) latest date _ _
    (docGet_absent w _ hq habs) notFound_status rfl
  rw [doHandler_reaches tbl w r latest rest date hc hr he hd]
  refine ⟨hm, ?_, ?_, ?_⟩
  · rw [hcalls.1, h1, hm]; rfl
  · rw [hcalls.2, h2]; rfl
  · intro hp
    rw [checkAndRecord_new tbl w _ latest date _ _ (docGet_absent w _ hq habs) notFound_status
      rfl hp]
    simp [Store.write, k]

/-- Witness of claim C6 as the handler behaves: the March entry with a body
without markers, against the empty store. -/
theorem zero_category_entry_recorded_witness :
    message noTable noMarkers = "" ∧
      emitted (doHandler noTable (worldOf (feedOf [entryOf marchID noMarkers]) emptyStore)).calls
        = [""] ∧
      written (doHandler noTable (worldOf (feedOf [entryOf marchID noMarkers]) emptyStore)).calls
        = [(marchPath, entryOf marchID noMarkers)] :=
  have h := zero_category_entry_recorded noTable
    (worldOf (feedOf [entryOf marchID noMarkers]) emptyStore)
    ⟨feedOf [entryOf marchID noMarkers], none⟩ (entryOf marchID noMarkers) []
    "March_10_2020" rfl rfl rfl (by decide) (by decide) rfl rfl
  ⟨h.1, h.2.1, h.2.2.1⟩

/-- Claim C7 at its failing input: on a decoded feed without entries the
handler runs into the index expression `feed.Entries[0]` and panics with index
0 out of range of length 0; it returns no error of its own. -/
theorem empty_feed_panics :
    (doHandler noTable (worldOf (feedOf []) emptyStore)).exit
        = Exit.panicked (Panic.indexOutOfRange 0 0) ∧
      (doHandler noTable (worldOf (feedOf []) emptyStore)).calls
        = [Call.newClient, Call.fetch feedURL, Call.decode] := by
  decide

/-- Claim C8 at its failing inputs: after a decoder error the handler goes on
to select the first entry, queries the store, sends the message and writes the
record; after a fetch error with a response it goes on to run the decoder; and
after a fetch error without a response it does not return but panics on the
nil response. -/
theorem failed_stage_does_not_stop :
    (doHandler noTable truncatedWorld).calls
        = [Call.newClient, Call.fetch feedURL, Call.decode,
            Call.errorf "unable to decode feed: XML syntax error: unexpected EOF",
            Call.docGet marchPath, Call.emit "Cloud Run has 2 new features and 1 fix",
            Call.put marchPath (entryOf marchID twoFeaturesOneFix)] ∧
      (doHandler noTable truncatedWorld).store marchPath
        = some (entryOf marchID twoFeaturesOneFix) ∧
      (doHandler noTable truncatedWorld).exit = Exit.returnedErr none ∧
      decoded (doHandler noTable redirectWorld).calls = 1 ∧
      (doHandler noTable unreachableWorld).exit = Exit.panicked Panic.nilDereference := by
  decide

/-- Claim C9 at its failing input: for an entry whose identity contains no `#`
the slice `strings.Split(latest.ID, "#")` has one element and the handler
panics with index 1 out of range of length 1. -/
theorem identity_without_hash_panics :
    strings.Split "tag:google.com,2016:run-release-notes" '#'
        = ["tag:google.com,2016:run-release-notes"] ∧
      (doHandler noTable (worldOf
        (feedOf [entryOf "tag:google.com,2016:run-release-notes" twoFeaturesOneFix])
        emptyStore)).exit = Exit.panicked (Panic.indexOutOfRange 1 1) := by
  decide

theorem map_toLower_eq (tbl : Char → Char) (l₁ l₂ : List Char)
    (h : List.Forall₂ (fun p q => unicode.ToLower tbl p = unicode.ToLower tbl q) l₁ l₂) :
    l₁.map (unicode.ToLower tbl) = l₂.map (unicode.ToLower tbl) := by
  induction h with
  | nil => rfl
  | cons hab _ ih => simp [List.map, hab, ih]

theorem toLower_eq_of_sameUpToCase (tbl : Char → Char) (a b : String)
    (h : sameUpToCase tbl a b) : strings.ToLower tbl a = strings.ToLower tbl b := by
  unfold strings.ToLower
  rw [map_toLower_eq tbl a.data b.data h]

theorem upper_letter_cases (p : Char) (h : 'A'.val ≤ p.val ∧ p.val ≤ 'Z'.val) :
    p ∈ "ABCDEFGHIJKLMNOPQRSTUVWXYZ".data := by
  have h1 : 65 ≤ p.toNat := h.1
  have h2 : p.toNat ≤ 90 := h.2
  rw [← Char.ofNat_toNat p]
  generalize p.toNat = n at h1 h2
  interval_cases n <;> decide

theorem lower_letter_cases (p : Char) (h : 'a'.val ≤ p.val ∧ p.val ≤ 'z'.val) :
    p ∈ "abcdefghijklmnopqrstuvwxyz".data := by
  have h1 : 97 ≤ p.toNat := h.1
  have h2 : p.toNat ≤ 122 := h.2
  rw [← Char.ofNat_toNat p]
  generalize p.toNat = n at h1 h2
  interval_cases n <;> decide

theorem toLower_asciiSwapCase (tbl : Char → Char) (p : Char) :
    unicode.ToLower tbl (asciiSwapCase p) = unicode.ToLower tbl p := by
  by_cases hu : 'A'.val ≤ p.val ∧ p.val ≤ 'Z'.val
  · have hm := upper_letter_cases p hu
    simp only [String.data, List.mem_cons, List.mem_singleton, List.not_mem_nil, or_false] at hm
    rcases hm with h | h | h | h | h | h | h | h | h | h | h | h | h | h | h | h | h | h | h | h |
      h | h | h | h | h | h <;> subst h <;> rfl
  · by_cases hl : 'a'.val ≤ p.val ∧ p.val ≤ 'z'.val
    · have hm := lower_letter_cases p hl
      simp only [String.data, List.mem_cons, List.mem_singleton, List.not_mem_nil, or_false] at hm
      rcases hm with h | h | h | h | h | h | h | h | h | h | h | h | h | h | h | h | h | h | h |
        h | h | h | h | h | h | h <;> subst h <;> rfl
    · simp only [asciiSwapCase, hu, hl, if_false]

theorem toLower_eq_of_asciiCaseChanged (tbl : Char → Char) (a b : String)
    (h : asciiCaseChanged a b) : strings.ToLower tbl a = strings.ToLower tbl b := by
  apply toLower_eq_of_sameUpToCase
  unfold sameUpToCase
  unfold asciiCaseChanged at h
  refine List.Forall₂.imp ?_ h
  intro p q hpq
  rcases hpq with rfl | rfl
  · rfl
  · exact (toLower_asciiSwapCase tbl p).symm

/-- Claim C10, for the ASCII letters: when the letter case of any ASCII
letters of a content body is changed, the three counts and the composed
message are unchanged, and the counts of the changed body are the numbers of
occurrences of the three markers in the lower-cased original; the markers
written `>Feature<` and `>FIXED<` are counted exactly like `>feature<` and
`>fixed<`, whatever the case table holds for the runes outside ASCII. -/
theorem classify_ignores_ascii_case (tbl : Char → Char) (a b : String)
    (h : asciiCaseChanged a b) :
    classify tbl a = classify tbl b ∧ message tbl a = message tbl b ∧
      classify tbl b = specClassify tbl a ∧
      classify tbl ">Feature<" = classify tbl ">feature<" ∧
      classify tbl ">Feature<" = (1, 0, 0) ∧
      classify tbl ">FIXED<" = classify tbl ">fixed<" ∧
      classify tbl ">FIXED<" = (0, 0, 1) := by
  have hl := toLower_eq_of_asciiCaseChanged tbl a b h
  have hc : classify tbl a = classify tbl b := by simp only [classify, hl]
  refine ⟨hc, ?_, ?_, rfl, rfl, rfl, rfl⟩
  · simp only [message, hl]
  · rw [← hc, classify_eq_specClassify]

/-- Witness of claim C10 for the ASCII letters: the body with two feature
headings and one fixed heading, once as the feed writes it and once in
capitals throughout. -/
theorem classify_ignores_ascii_case_witness :
    asciiCaseChanged twoFeaturesOneFix
        "<H3>FEATURE</H3><P>A</P><H3>FEATURE</H3><P>B</P><H3>FIXED</H3><P>C</P>" ∧
      classify noTable twoFeaturesOneFix
        = classify noTable
            "<H3>FEATURE</H3><P>A</P><H3>FEATURE</H3><P>B</P><H3>FIXED</H3><P>C</P>" ∧
      classify noTable
          "<H3>FEATURE</H3><P>A</P><H3>FEATURE</H3><P>B</P><H3>FIXED</H3><P>C</P>" = (2, 0, 1) :=
  have h := classify_ignores_ascii_case noTable twoFeaturesOneFix
    "<H3>FEATURE</H3><P>A</P><H3>FEATURE</H3><P>B</P><H3>FIXED</H3><P>C</P>" (by decide)
  ⟨by decide, h.1, by decide⟩

/-- Claim C10 as stated fails: the small dotless i, U+0131, is its own
lower-case form (as in the table `noTable`) and has the ASCII letter `I` as its
upper-case form.  Changing the letter case of the body `>fıxed<` to capitals
gives `>FIXED<`, and the count of the category fixed goes from 0 to 1. -/
theorem dotless_i_changes_the_fixed_count :
    strings.ToUpper upperOfDotlessI dotlessFixed = ">FIXED<" ∧
      caseChanged noTable upperOfDotlessI dotlessFixed ">FIXED<" ∧
      classify noTable dotlessFixed = (0, 0, 0) ∧
      classify noTable ">FIXED<" = (0, 0, 1) ∧
      classify noTable dotlessFixed ≠ classify noTable ">FIXED<" := by
  decide
